import Mathlib

/-!  Shallow embedding of the ExplorePy-EDA-Toolkit cleaning module
(`src/cleaning.py`).  Datasets are row-major tables of typed cells;
numeric values are modelled as exact rationals and missing values as
`Cell.na`.  Behaviour the source delegates to pandas, numpy and
scikit-learn is embedded according to the documented semantics of those
libraries.  Fallible operations return `Except`; because the source
mutates its dataframe argument in place, a failure carries the dataset
state the caller's variable holds at the moment the exception is raised. -/

/-- Cell of a tabular dataset: missing marker, numeric, text, or boolean
(booleans arise from one-hot indicator columns). -/
inductive Cell where
  | na : Cell
  | num (q : ℚ) : Cell
  | str (s : String) : Cell
  | bool (b : Bool) : Cell
deriving DecidableEq

/-- Value at position `i`, or `d` when out of range (positional access). -/
def nthD {α : Type} (l : List α) (i : ℕ) (d : α) : α :=
  match l, i with
  | [], _ => d
  | a :: _, 0 => a
  | _ :: as, n + 1 => nthD as n d

/-- Replace the value at position `i`; out-of-range indices leave the
list unchanged. -/
def setNth {α : Type} (l : List α) (i : ℕ) (a : α) : List α :=
  match l, i with
  | [], _ => []
  | _ :: bs, 0 => a :: bs
  | b :: bs, n + 1 => b :: setNth bs n a

/-- Index of the first element satisfying `p`. -/
def findIdxFrom {α : Type} (p : α → Bool) : List α → Option ℕ
  | [] => none
  | a :: as => if p a then some 0 else (findIdxFrom p as).map (fun k => k + 1)

/-- Insert into a list that is already sorted by `le`. -/
def insertSorted {α : Type} (le : α → α → Bool) (a : α) : List α → List α
  | [] => [a]
  | b :: bs => if le a b then a :: b :: bs else b :: insertSorted le a bs

/-- Insertion sort by `le` (the ascending order pandas quantiles and
`np.unique` rely on). -/
def sortBy {α : Type} (le : α → α → Bool) : List α → List α
  | [] => []
  | a :: as => insertSorted le a (sortBy le as)

/-- Keep the first occurrence of each key, dropping later elements whose
key was already seen (`drop_duplicates` with `keep="first"`). -/
def keepFirstBy {α β : Type} [DecidableEq β] (key : α → β) (seen : List β) : List α → List α
  | [] => []
  | a :: as =>
    if key a ∈ seen then keepFirstBy key seen as
    else a :: keepFirstBy key (key a :: seen) as

/-- Number of occurrences of `a` in a list. -/
def countEq {α : Type} [DecidableEq α] (a : α) : List α → ℕ
  | [] => 0
  | b :: bs => (if b = a then 1 else 0) + countEq a bs

/-- Concatenation of the images of `f` (used for the dummy-column blocks
of `get_dummies`). -/
def concatMap {α β : Type} (f : α → List β) : List α → List β
  | [] => []
  | a :: as => f a ++ concatMap f as

/-- In-memory tabular dataset: named columns over row-major storage. -/
structure Dataset where
  colNames : List String
  rows : List (List Cell)
deriving DecidableEq

/-- Row count of a dataset (`len(df)`). -/
def nrows (df : Dataset) : ℕ := df.rows.length

/-- Well-formedness: every row has one cell per column name. -/
def Dataset.wf (df : Dataset) : Prop :=
  ∀ r ∈ df.rows, r.length = df.colNames.length

/-- Position of a named column (`df[name]` raises `KeyError` when this
is `none`). -/
def colIdx (df : Dataset) (name : String) : Option ℕ :=
  findIdxFrom (fun m => m == name) df.colNames

/-- Cells of the `i`-th column, top to bottom. -/
def colCells (df : Dataset) (i : ℕ) : List Cell :=
  df.rows.map (fun r => nthD r i Cell.na)

/-- Overwrite the `i`-th column with the given cells (in-place column
assignment). -/
def setColCells (df : Dataset) (i : ℕ) (cs : List Cell) : Dataset :=
  ⟨df.colNames, (df.rows.zip cs).map (fun rc => setNth rc.1 i rc.2)⟩

/-- Column read by name, as `df[name]`. -/
def getCol (df : Dataset) (name : String) : Option (List Cell) :=
  (colIdx df name).map (fun i => colCells df i)

/-- Positions of several named columns; `none` as soon as one is
missing. -/
def colIdxList (df : Dataset) : List String → Option (List ℕ)
  | [] => some []
  | n :: ns =>
    match colIdx df n, colIdxList df ns with
    | some i, some is => some (i :: is)
    | _, _ => none

/-- Missing-cell test (`isnull`). -/
def isNa : Cell → Bool
  | Cell.na => true
  | _ => false

/-- The numeric values of a column, missing cells skipped. -/
def numsOf : List Cell → List ℚ
  | [] => []
  | Cell.num q :: cs => q :: numsOf cs
  | _ :: cs => numsOf cs

/-- The non-missing cells of a column (`dropna`). -/
def dropNa : List Cell → List Cell
  | [] => []
  | Cell.na :: cs => dropNa cs
  | c :: cs => c :: dropNa cs

/-- True when the column holds a text or boolean cell, i.e. is not a
plain numeric column; pandas raises on numeric statistics for such
columns. -/
def hasNonNum : List Cell → Bool
  | [] => false
  | Cell.str _ :: _ => true
  | Cell.bool _ :: _ => true
  | _ :: cs => hasNonNum cs

/-- Contains a text cell, i.e. is stored with `object` dtype. -/
def hasStrCell : List Cell → Bool
  | [] => false
  | Cell.str _ :: _ => true
  | _ :: cs => hasStrCell cs

/-- Sum of a list of rationals. -/
def sumQ : List ℚ → ℚ
  | [] => 0
  | x :: xs => x + sumQ xs

/-- Ascending non-missing values of a column. -/
def sortedNums (cells : List Cell) : List ℚ :=
  sortBy (fun a b => decide (a ≤ b)) (numsOf cells)

/-- `Series.mean`: arithmetic mean of the non-missing values, `NaN`
(embedded as `none`) when there are none. -/
def colMean (cells : List Cell) : Option ℚ :=
  if numsOf cells = [] then none
  else some (sumQ (numsOf cells) / ((numsOf cells).length : ℚ))

/-- `Series.median`: middle of the sorted non-missing values, the average
of the two middles on even length, `NaN` when there are none. -/
def colMedian (cells : List Cell) : Option ℚ :=
  if numsOf cells = [] then none
  else if (numsOf cells).length % 2 = 1 then
    some (nthD (sortedNums cells) ((numsOf cells).length / 2) 0)
  else
    some ((nthD (sortedNums cells) ((numsOf cells).length / 2 - 1) 0 +
           nthD (sortedNums cells) ((numsOf cells).length / 2) 0) / 2)

/-- Rank used to order cells of different kinds (only homogeneous columns
are sorted by the source's libraries; `NaN` sorts last as in
`np.unique`). -/
def cellRank : Cell → ℕ
  | Cell.bool _ => 0
  | Cell.num _ => 1
  | Cell.str _ => 2
  | Cell.na => 3

/-- Lexicographic comparison of character lists by code point. -/
def charListLE : List Char → List Char → Bool
  | [], _ => true
  | _ :: _, [] => false
  | a :: as, b :: bs =>
    if a.toNat < b.toNat then true
    else if b.toNat < a.toNat then false
    else charListLE as bs

/-- Lexicographic string comparison by code point. -/
def strLE (a b : String) : Bool := charListLE a.data b.data

/-- Ascending order on cells: numeric by value, text lexicographic,
false before true, missing last. -/
def cellLE (a b : Cell) : Bool :=
  match a, b with
  | Cell.num x, Cell.num y => decide (x ≤ y)
  | Cell.str x, Cell.str y => strLE x y
  | Cell.bool x, Cell.bool y => !x || y
  | x, y => decide (cellRank x ≤ cellRank y)

/-- First element of the sorted candidates attaining the count `best`. -/
def modeFirst : List Cell → List Cell → ℕ → Option Cell
  | [], _, _ => none
  | c :: cs, cand, best =>
    if countEq c cand = best then some c else modeFirst cs cand best

/-- Largest occurrence count among the candidates. -/
def bestCount (cand : List Cell) : List Cell → ℕ
  | [] => 0
  | c :: cs => max (countEq c cand) (bestCount cand cs)

/-- `Series.mode`: the most frequent non-missing values in ascending
order; `mode()[0]` takes the smallest, and raises `KeyError` (here
`none`) when the column has no non-missing value. -/
def colMode (cells : List Cell) : Option Cell :=
  modeFirst (sortBy cellLE (dropNa cells)) (dropNa cells) (bestCount (dropNa cells) (dropNa cells))

/-- Linear interpolation of an ascending list at position `num/denom`:
the entry at the floor of the position, moved towards the next entry by
the fractional part. -/
def interpolate (xs : List ℚ) (num denom : ℕ) : ℚ :=
  nthD xs (num / denom) 0 +
    ((num : ℚ) / (denom : ℚ) - ((num / denom : ℕ) : ℚ)) *
      (nthD xs (num / denom + 1) (nthD xs (num / denom) 0) - nthD xs (num / denom) 0)

/-- `Series.quantile(pct/100)` over an ascending list (pandas default
linear interpolation at position `pct·(n−1)/100`); `NaN` (`none`) on an
empty list. -/
def quantileSorted : List ℚ → ℕ → Option ℚ
  | [], _ => none
  | x :: xs, pct => some (interpolate (x :: xs) (pct * ((x :: xs).length - 1)) 100)

/-- One summary record of `data_quality_report` (the `DataType` column of
the report is a storage detail the cell model does not carry). -/
structure QualityRow where
  column : String
  nonNullCount : ℕ
  nullCount : ℕ
  nullPercentage : Option ℚ
  uniqueValues : ℕ
  duplicateRows : ℕ
deriving DecidableEq

/-- `df.duplicated().sum()`: rows whose full value combination repeats an
earlier row (missing compares equal to missing). -/
def duplicatedCount (rows : List (List Cell)) : ℕ :=
  rows.length - (keepFirstBy id [] rows).length

/-- `data_quality_report` (src/cleaning.py).  The null percentage is
`isnull().sum() / len(df) * 100`; on a zero-row dataset numpy evaluates
the `0 / 0` to `NaN` (embedded as `none`) instead of raising. -/
def data_quality_report (df : Dataset) : List QualityRow :=
  (List.range df.colNames.length).map (fun i =>
    ⟨nthD df.colNames i "",
     (dropNa (colCells df i)).length,
     (colCells df i).length - (dropNa (colCells df i)).length,
     if nrows df = 0 then none
     else some ((((colCells df i).length - (dropNa (colCells df i)).length : ℕ) : ℚ) /
                (nrows df : ℚ) * 100),
     (keepFirstBy id [] (dropNa (colCells df i))).length,
     duplicatedCount df.rows⟩)

/-- Python truthiness of the `columns` argument: `None` and the empty
list both fall back to all columns (`columns if columns else df.columns`). -/
def effectiveColumns (df : Dataset) (columns : Option (List String)) : List String :=
  match columns with
  | none => df.colNames
  | some cs => if cs = [] then df.colNames else cs

/-- `df.dropna(subset=cols)`: drop every row with a missing value in one
of the named columns; an unknown name raises `KeyError` before any row
is touched. -/
def dropna (df : Dataset) (cols : List String) : Except (String × Dataset) Dataset :=
  match colIdxList df cols with
  | none => Except.error ("KeyError", df)
  | some idxs =>
      Except.ok ⟨df.colNames, df.rows.filter (fun r => idxs.all (fun i => !isNa (nthD r i Cell.na)))⟩

/-- `Series.fillna(v)`: substitute `v` for each missing cell; filling
with `NaN` (`none`) leaves missing cells missing. -/
def fillValue (v : Option Cell) : List Cell → List Cell
  | [] => []
  | Cell.na :: cs => v.getD Cell.na :: fillValue v cs
  | c :: cs => c :: fillValue v cs

/-- The statistic a fill strategy substitutes, computed over the column's
non-missing cells only. -/
def statCell (strategy : String) (cells : List Cell) : Option Cell :=
  if strategy = "mean" then (colMean cells).map Cell.num
  else if strategy = "median" then (colMedian cells).map Cell.num
  else colMode cells

/-- One iteration of the `handle_missing_values` fill loop: rewrite
column `name` of `df` in place according to `strategy`.
* `mean`/`median` raise `TypeError` on a non-numeric column;
* `mode()[0]` raises `KeyError` when the column has no non-missing value;
* `knn` is `sklearn.KNNImputer` fitted on the single column: a row whose
  only feature is missing has no usable neighbour distance, so the
  imputer falls back to the column mean whatever `n_neighbors` is, and
  the call raises once the column is non-numeric or entirely missing;
* any other strategy matches no branch and leaves `df` untouched. -/
def fillColumn (df : Dataset) (strategy : String) (name : String) : Except String Dataset :=
  if strategy = "mean" ∨ strategy = "median" then
    match colIdx df name with
    | none => Except.error "KeyError"
    | some i =>
        if hasNonNum (colCells df i) then Except.error "TypeError"
        else Except.ok (setColCells df i (fillValue (statCell strategy (colCells df i)) (colCells df i)))
  else if strategy = "mode" then
    match colIdx df name with
    | none => Except.error "KeyError"
    | some i =>
        match colMode (colCells df i) with
        | none => Except.error "KeyError"
        | some m => Except.ok (setColCells df i (fillValue (some m) (colCells df i)))
  else if strategy = "knn" then
    match colIdx df name with
    | none => Except.error "KeyError"
    | some i =>
        if hasNonNum (colCells df i) then Except.error "ValueError"
        else
          match colMean (colCells df i) with
          | none => Except.error "ValueError"
          | some m => Except.ok (setColCells df i (fillValue (some (Cell.num m)) (colCells df i)))
  else Except.ok df

/-- Run a per-column in-place mutation over a list of column names; a
failure surfaces the exception together with the dataset state at that
point, because the source has already mutated the caller's dataframe. -/
def columnLoop (step : Dataset → String → Except String Dataset) (df : Dataset) :
    List String → Except (String × Dataset) Dataset
  | [] => Except.ok df
  | c :: cs =>
    match step df c with
    | Except.error e => Except.error (e, df)
    | Except.ok df2 => columnLoop step df2 cs

/-- `handle_missing_values` (src/cleaning.py).  `knn_neighbors` is
accepted as in the source; fitted on a single column the imputer's
result does not depend on it (see `fillColumn`). -/
def handle_missing_values (df : Dataset) (strategy : String)
    (columns : Option (List String)) (knn_neighbors : ℕ) : Except (String × Dataset) Dataset :=
  if strategy = "drop" then dropna df (effectiveColumns df columns)
  else columnLoop (fun d c => fillColumn d strategy c) df (effectiveColumns df columns)

/-- `remove_duplicates` (src/cleaning.py): `df.drop_duplicates(subset)`,
keeping the first occurrence of each value combination over the subset
columns (all columns when `subset` is `None`); missing cells compare
equal to missing cells. -/
def remove_duplicates (df : Dataset) (subset : Option (List String)) :
    Except (String × Dataset) Dataset :=
  match subset with
  | none => Except.ok ⟨df.colNames, keepFirstBy id [] df.rows⟩
  | some cs =>
    match colIdxList df cs with
    | none => Except.error ("KeyError", df)
    | some idxs =>
        Except.ok ⟨df.colNames,
          keepFirstBy (fun r => idxs.map (fun i => nthD r i Cell.na)) [] df.rows⟩

/-- IQR fence of a column: `[Q1 − 1.5·IQR, Q3 + 1.5·IQR]`; `none` when
the column has no non-missing value (pandas then yields `NaN` quantiles
and every comparison below is false). -/
def mkBounds : Option ℚ → Option ℚ → Option (ℚ × ℚ)
  | some q1, some q3 => some (q1 - 1.5 * (q3 - q1), q3 + 1.5 * (q3 - q1))
  | _, _ => none

def iqrBounds (cells : List Cell) : Option (ℚ × ℚ) :=
  mkBounds (quantileSorted (sortedNums cells) 25) (quantileSorted (sortedNums cells) 75)

/-- Flag the cells strictly outside `[lo, hi]`; non-numeric cells
(missing in particular) compare false on both sides. -/
def flagCells (lo hi : ℚ) : List Cell → List Bool
  | [] => []
  | Cell.num v :: cs => decide (v < lo ∨ v > hi) :: flagCells lo hi cs
  | _ :: cs => false :: flagCells lo hi cs

/-- Row mask of `detect_outliers_iqr`: a numeric cell is flagged iff it
lies strictly outside the fence; when the fence is `NaN` every comparison
is false. -/
def maskWith : Option (ℚ × ℚ) → List Cell → List Bool
  | none, cells => cells.map (fun _ => false)
  | some lohi, cells => flagCells lohi.1 lohi.2 cells

def maskOf (cells : List Cell) : List Bool :=
  maskWith (iqrBounds cells) cells

/-- `detect_outliers_iqr` (src/cleaning.py). -/
def detect_outliers_iqr (df : Dataset) (column : String) : Except String (List Bool) :=
  match colIdx df column with
  | none => Except.error "KeyError"
  | some i =>
      if hasNonNum (colCells df i) then Except.error "TypeError"
      else Except.ok (maskOf (colCells df i))

/-- `remove_outliers` (src/cleaning.py): `df[~outliers]`. -/
def remove_outliers (df : Dataset) (column : String) : Except (String × Dataset) Dataset :=
  match detect_outliers_iqr df column with
  | Except.error e => Except.error (e, df)
  | Except.ok mask =>
      Except.ok ⟨df.colNames, ((df.rows.zip mask).filter (fun rm => !rm.2)).map (fun rm => rm.1)⟩

/-- Attempt to parse a whole object column as dates; missing cells parse
to `NaT`, and any other failure makes the whole conversion fail. -/
def parseAll (parseDate : String → Option ℚ) : List Cell → Option (List Cell)
  | [] => some []
  | Cell.str s :: cs =>
    match parseDate s, parseAll parseDate cs with
    | some t, some rest => some (Cell.num t :: rest)
    | _, _ => none
  | Cell.na :: cs => (parseAll parseDate cs).map (fun rest => Cell.na :: rest)
  | _ :: _ => none

/-- One column of `convert_dtypes`: an object (text-holding) column is
converted only when `pd.to_datetime` parses it entirely, any failure
being swallowed by the `try/except pass`; the numeric downcast changes
the storage width, not the value. -/
def convertColumn (parseDate : String → Option ℚ) (cells : List Cell) : List Cell :=
  if hasStrCell cells then
    match parseAll parseDate cells with
    | some converted => converted
    | none => cells
  else cells

/-- `convert_dtypes` (src/cleaning.py), the library date parser passed as
a parameter. -/
def convert_dtypes (parseDate : String → Option ℚ) (df : Dataset) : Dataset :=
  let newCols := (List.range df.colNames.length).map (fun i => convertColumn parseDate (colCells df i))
  ⟨df.colNames, (List.range (nrows df)).map (fun j => newCols.map (fun col => nthD col j Cell.na))⟩

/-- Printed form of a cell, used in generated dummy-column names. -/
def cellName : Cell → String
  | Cell.str s => s
  | Cell.num q => toString q
  | Cell.bool b => toString b
  | Cell.na => "nan"

/-- Distinct observed (non-missing) values of a column in ascending order
(the category order of `np.unique` and `pd.get_dummies`). -/
def sortedDistinct (cells : List Cell) : List Cell :=
  keepFirstBy id [] (sortBy cellLE (dropNa cells))

/-- Indicator column names `get_dummies` generates for one encoded column
under `drop_first=True`: `<original>_<category>` for each distinct
category except the first in ascending order. -/
def oneHotNames (name : String) (cells : List Cell) : List String :=
  ((sortedDistinct cells).drop 1).map (fun c => name ++ "_" ++ cellName c)

/-- `pd.get_dummies(df, columns=columns, drop_first=True)`: the encoded
columns are removed, the remaining columns keep their order, and for each
encoded column boolean indicator blocks are appended; a missing cell sets
every indicator of its row false.  An unknown column name raises
`KeyError` before anything is built. -/
def encode_one_hot (df : Dataset) (columns : List String) : Except (String × Dataset) Dataset :=
  match colIdxList df columns with
  | none => Except.error ("KeyError", df)
  | some idxs =>
      let keep := (List.range df.colNames.length).filter (fun i => !(idxs.contains i))
      let newNames :=
        keep.map (fun i => nthD df.colNames i "") ++
        concatMap (fun ni => oneHotNames ni.1 (colCells df ni.2)) (columns.zip idxs)
      let newRows :=
        df.rows.map (fun r =>
          keep.map (fun i => nthD r i Cell.na) ++
          concatMap (fun ni =>
            ((sortedDistinct (colCells df ni.2)).drop 1).map (fun c =>
              Cell.bool (decide (nthD r ni.2 Cell.na = c)))) (columns.zip idxs))
      Except.ok ⟨newNames, newRows⟩

/-- Ascending distinct class list `LabelEncoder` fits on a column
(`np.unique`, missing sorting last). -/
def labelClasses (cells : List Cell) : List Cell :=
  keepFirstBy id [] (sortBy cellLE cells)

/-- Integer codes `LabelEncoder.fit_transform` assigns to a column:
each value is replaced by its position in the ascending class list of
that same column. -/
def labelEncodeCells (cells : List Cell) : List Cell :=
  cells.map (fun c => Cell.num (((findIdxFrom (fun x => x == c) (labelClasses cells)).getD 0 : ℕ) : ℚ))

/-- One column of `label` encoding, rewritten in place. -/
def labelColumn (df : Dataset) (name : String) : Except String Dataset :=
  match colIdx df name with
  | none => Except.error "KeyError"
  | some i => Except.ok (setColCells df i (labelEncodeCells (colCells df i)))

/-- `encode_categorical` (src/cleaning.py): `one_hot` via `get_dummies`,
`label` via a per-column in-place `LabelEncoder` loop, and any other
`encoding_type` string silently returns the dataset unchanged. -/
def encode_categorical (df : Dataset) (columns : List String) (encoding_type : String) :
    Except (String × Dataset) Dataset :=
  if encoding_type = "one_hot" then encode_one_hot df columns
  else if encoding_type = "label" then columnLoop labelColumn df columns
  else Except.ok df

/-- The dataset the caller's variable refers to after a stage call: the
result on success, the in-place mutated state carried by the failure
otherwise. -/
def resultState : Except (String × Dataset) Dataset → Dataset
  | Except.ok d => d
  | Except.error e => e.2

/-- The spec's §4.3 percentile, stated in the spec's own words: linear
interpolation between ranks, lower rank the floor of `pct·(n−1)/100`,
upper rank the following rank clamped to the last one. -/
def specPercentile (pct : ℕ) (xs : List ℚ) : Option ℚ :=
  match xs with
  | [] => none
  | _ =>
    let r := pct * (xs.length - 1) / 100
    let s := min (r + 1) (xs.length - 1)
    let pos : ℚ := ((pct * (xs.length - 1) : ℕ) : ℚ) / 100
    some (nthD xs r 0 + (pos - (r : ℚ)) * (nthD xs s 0 - nthD xs r 0))

/-- The spec's §4.3 outlier rule, stated in the spec's own words: flag a
cell iff it is a number strictly below `Q1 − 1.5·IQR` or strictly above
`Q3 + 1.5·IQR`, the quartiles taken over the non-missing values; missing
cells are never flagged. -/
def specOutlierMask (cells : List Cell) : List Bool :=
  match specPercentile 25 (sortedNums cells), specPercentile 75 (sortedNums cells) with
  | some q1, some q3 =>
      cells.map (fun c =>
        match c with
        | Cell.num v => decide (v < q1 - 1.5 * (q3 - q1) ∨ v > q3 + 1.5 * (q3 - q1))
        | _ => false)
  | _, _ => cells.map (fun _ => false)

/-! ### Basic lemmas about the embedding -/

theorem resultState_ok (d : Dataset) : resultState (Except.ok d) = d := rfl

theorem resultState_error (e : String × Dataset) : resultState (Except.error e) = e.2 := rfl

theorem nthD_congr {α : Type} (l : List α) (i : ℕ) (d d' : α) (h : i < l.length) :
    nthD l i d = nthD l i d' := by
  induction l generalizing i with
  | nil => simp at h
  | cons a as ih =>
    cases i with
    | zero => rfl
    | succ n => exact ih n (by simpa using h)

theorem nthD_default {α : Type} (l : List α) (i : ℕ) (d : α) (h : l.length ≤ i) :
    nthD l i d = d := by
  induction l generalizing i with
  | nil => cases i <;> rfl
  | cons a as ih =>
    cases i with
    | zero => simp at h
    | succ n => exact ih n (by simpa using h)

theorem setNth_length {α : Type} (l : List α) (i : ℕ) (a : α) :
    (setNth l i a).length = l.length := by
  induction l generalizing i with
  | nil => rfl
  | cons b bs ih => cases i <;> simp [setNth, ih]

theorem nthD_setNth_self {α : Type} (l : List α) (i : ℕ) (a d : α) (h : i < l.length) :
    nthD (setNth l i a) i d = a := by
  induction l generalizing i with
  | nil => simp at h
  | cons b bs ih =>
    cases i with
    | zero => rfl
    | succ n => exact ih n (by simpa using h)

theorem nthD_setNth_ne {α : Type} (l : List α) (i j : ℕ) (a d : α) (h : i ≠ j) :
    nthD (setNth l i a) j d = nthD l j d := by
  induction l generalizing i j with
  | nil => rfl
  | cons b bs ih =>
    cases i with
    | zero => cases j with
      | zero => exact absurd rfl h
      | succ m => rfl
    | succ n =>
      cases j with
      | zero => rfl
      | succ m => exact ih n m (by omega)

theorem fillValue_length (v : Option Cell) (cells : List Cell) :
    (fillValue v cells).length = cells.length := by
  induction cells with
  | nil => rfl
  | cons c cs ih => cases c <;> simp [fillValue, ih]

theorem fillValue_no_missing (v : Option Cell) (cells : List Cell) (h : Cell.na ∉ cells) :
    fillValue v cells = cells := by
  induction cells with
  | nil => rfl
  | cons c cs ih =>
    cases c with
    | na => exact absurd (List.mem_cons_self _ _) h
    | num q => simp only [fillValue]; rw [ih (fun hm => h (List.mem_cons_of_mem _ hm))]
    | str s => simp only [fillValue]; rw [ih (fun hm => h (List.mem_cons_of_mem _ hm))]
    | bool b => simp only [fillValue]; rw [ih (fun hm => h (List.mem_cons_of_mem _ hm))]

theorem fillValue_nthD (v : Option Cell) (cells : List Cell) (j : ℕ) (h : j < cells.length) :
    nthD (fillValue v cells) j Cell.na =
      if nthD cells j Cell.na = Cell.na then v.getD Cell.na else nthD cells j Cell.na := by
  induction cells generalizing j with
  | nil => simp at h
  | cons c cs ih =>
    cases j with
    | zero => cases c <;> simp [fillValue, nthD]
    | succ n => cases c <;> simpa [fillValue, nthD] using ih n (by simpa using h)

theorem keepFirstBy_length_le {α β : Type} [DecidableEq β] (key : α → β)
    (seen : List β) (l : List α) :
    (keepFirstBy key seen l).length ≤ l.length := by
  induction l generalizing seen with
  | nil => exact Nat.le_refl 0
  | cons a as ih =>
    simp only [keepFirstBy]
    by_cases hm : key a ∈ seen
    · simp only [if_pos hm]
      exact Nat.le_succ_of_le (ih seen)
    · simp only [if_neg hm, List.length_cons]
      exact Nat.succ_le_succ (ih (key a :: seen))

theorem keepFirstBy_idem {α β : Type} [DecidableEq β] (key : α → β)
    (seen : List β) (l : List α) :
    keepFirstBy key seen (keepFirstBy key seen l) = keepFirstBy key seen l := by
  induction l generalizing seen with
  | nil => rfl
  | cons a as ih =>
    simp only [keepFirstBy]
    by_cases hm : key a ∈ seen
    · simp only [if_pos hm]
      exact ih seen
    · simp only [if_neg hm, keepFirstBy, if_neg hm]
      rw [ih (key a :: seen)]

theorem colCells_length (df : Dataset) (i : ℕ) : (colCells df i).length = nrows df := by
  simp [colCells, nrows]

theorem nrows_setColCells (df : Dataset) (i : ℕ) (cs : List Cell) (h : cs.length = nrows df) :
    nrows (setColCells df i cs) = nrows df := by
  simp [nrows, setColCells, List.length_zip, h]

theorem setColCells_colNames (df : Dataset) (i : ℕ) (cs : List Cell) :
    (setColCells df i cs).colNames = df.colNames := rfl

theorem colCells_setColCells_self (df : Dataset) (i : ℕ) (cs : List Cell)
    (hlen : cs.length = nrows df) (hwf : ∀ r ∈ df.rows, i < r.length) :
    colCells (setColCells df i cs) i = cs := by
  have main : ∀ (rows : List (List Cell)) (cs : List Cell), cs.length = rows.length →
      (∀ r ∈ rows, i < r.length) →
      ((rows.zip cs).map (fun rc => setNth rc.1 i rc.2)).map (fun r => nthD r i Cell.na) = cs := by
    intro rows
    induction rows with
    | nil => intro cs h _; cases cs <;> simp_all
    | cons r rs ih =>
      intro cs h hw
      cases cs with
      | nil => simp at h
      | cons c cs' =>
        simp only [List.zip_cons_cons, List.map_cons, List.cons.injEq]
        constructor
        · exact nthD_setNth_self r i c Cell.na (hw r (List.mem_cons_self _ _))
        · exact ih cs' (by simpa using h) (fun x hx => hw x (List.mem_cons_of_mem _ hx))
  simpa [colCells, setColCells] using main df.rows cs (by simpa [nrows] using hlen) hwf

theorem colCells_setColCells_ne (df : Dataset) (i j : ℕ) (cs : List Cell)
    (hlen : cs.length = nrows df) (hij : i ≠ j) :
    colCells (setColCells df i cs) j = colCells df j := by
  have main : ∀ (rows : List (List Cell)) (cs : List Cell), cs.length = rows.length →
      ((rows.zip cs).map (fun rc => setNth rc.1 i rc.2)).map (fun r => nthD r j Cell.na) =
        rows.map (fun r => nthD r j Cell.na) := by
    intro rows
    induction rows with
    | nil => intro cs _; simp
    | cons r rs ih =>
      intro cs h
      cases cs with
      | nil => simp at h
      | cons c cs' =>
        simp only [List.zip_cons_cons, List.map_cons, List.cons.injEq]
        exact ⟨nthD_setNth_ne r i j c Cell.na hij, ih cs' (by simpa using h)⟩
  simpa [colCells, setColCells] using main df.rows cs (by simpa [nrows] using hlen)

theorem setColCells_wf (df : Dataset) (i : ℕ) (cs : List Cell) (hwf : df.wf) :
    (setColCells df i cs).wf := by
  intro r hr
  simp only [setColCells] at hr ⊢
  rcases List.mem_map.mp hr with ⟨rc, hrc, heq⟩
  rw [← heq, setNth_length]
  exact hwf rc.1 (List.of_mem_zip hrc).1

/-! ### Row counts of the individual stages -/

theorem fillColumn_nrows {df : Dataset} {strategy name : String} {d : Dataset}
    (h : fillColumn df strategy name = Except.ok d) : nrows d = nrows df := by
  have hset : ∀ (i : ℕ) (v : Option Cell),
      nrows (setColCells df i (fillValue v (colCells df i))) = nrows df := fun i v =>
    nrows_setColCells df i _ (by rw [fillValue_length, colCells_length])
  unfold fillColumn at h
  repeat' split at h
  all_goals first
    | (injection h with h2; rw [← h2]; exact hset _ _)
    | (injection h with h2; rw [← h2])
    | injection h

theorem columnLoop_nrows (step : Dataset → String → Except String Dataset)
    (hstep : ∀ d c d2, step d c = Except.ok d2 → nrows d2 = nrows d)
    (df : Dataset) (cols : List String) :
    nrows (resultState (columnLoop step df cols)) = nrows df := by
  induction cols generalizing df with
  | nil => rfl
  | cons c cs ih =>
    simp only [columnLoop]
    cases h : step df c with
    | error e => rfl
    | ok d2 => rw [ih d2]; exact hstep df c d2 h

theorem dropna_nrows (df : Dataset) (cols : List String) :
    nrows (resultState (dropna df cols)) ≤ nrows df := by
  unfold dropna
  cases h : colIdxList df cols with
  | none => exact Nat.le_refl _
  | some idxs => simpa [nrows, resultState] using List.length_filter_le _ df.rows

theorem handle_missing_values_nrows (df : Dataset) (strategy : String)
    (columns : Option (List String)) (k : ℕ) :
    nrows (resultState (handle_missing_values df strategy columns k)) ≤ nrows df ∧
      (strategy = "drop" ∨
        nrows (resultState (handle_missing_values df strategy columns k)) = nrows df) := by
  by_cases hs : strategy = "drop"
  · refine ⟨?_, Or.inl hs⟩
    simp only [handle_missing_values, if_pos hs]
    exact dropna_nrows df _
  · have heq : nrows (resultState (handle_missing_values df strategy columns k)) = nrows df := by
      simp only [handle_missing_values, if_neg hs]
      exact columnLoop_nrows _ (fun d c d2 h => fillColumn_nrows h) df _
    exact ⟨le_of_eq heq, Or.inr heq⟩

theorem remove_outliers_nrows (df : Dataset) (column : String) :
    nrows (resultState (remove_outliers df column)) ≤ nrows df := by
  unfold remove_outliers
  cases h : detect_outliers_iqr df column with
  | error e => exact Nat.le_refl _
  | ok mask =>
      simp only [resultState, nrows, List.length_map]
      calc ((df.rows.zip mask).filter (fun rm => !rm.2)).length
          ≤ (df.rows.zip mask).length := List.length_filter_le _ _
        _ ≤ df.rows.length := by rw [List.length_zip]; exact Nat.min_le_left _ _

theorem remove_duplicates_nrows (df : Dataset) (subset : Option (List String)) :
    nrows (resultState (remove_duplicates df subset)) ≤ nrows df := by
  cases subset with
  | none => exact keepFirstBy_length_le _ _ _
  | some cs =>
      cases h : colIdxList df cs with
      | none => simp [remove_duplicates, h, resultState]
      | some idxs =>
          simp only [remove_duplicates, h]
          exact keepFirstBy_length_le _ _ _

theorem convert_dtypes_nrows (parseDate : String → Option ℚ) (df : Dataset) :
    nrows (convert_dtypes parseDate df) = nrows df := by
  simp [convert_dtypes, nrows]

theorem labelColumn_nrows {df : Dataset} {name : String} {d : Dataset}
    (h : labelColumn df name = Except.ok d) : nrows d = nrows df := by
  unfold labelColumn at h
  split at h
  · injection h
  · injection h with h2
    rw [← h2]
    exact nrows_setColCells df _ _ (by simp [labelEncodeCells, colCells_length, nrows])

theorem encode_categorical_nrows (df : Dataset) (columns : List String) (t : String) :
    nrows (resultState (encode_categorical df columns t)) = nrows df := by
  unfold encode_categorical
  split
  · unfold encode_one_hot
    cases h : colIdxList df columns with
    | none => rfl
    | some idxs => simp [resultState, nrows]
  · split
    · exact columnLoop_nrows _ (fun d c d2 h => labelColumn_nrows h) df columns
    · rfl

/-- **C1.** Row-count invariants of the cleaning stages.  The quality
report and the outlier mask produce no dataset, so the dataset stages
are: missing-value handling never increases the row count and changes it
only under the `drop` strategy; outlier removal and duplicate removal
only ever decrease it; type normalization and categorical encoding (and
the failure state of any stage) leave it unchanged.  Row counts are
stated on `resultState`, the dataset the caller's variable holds after
the call whether it succeeded or failed. -/
theorem c1_row_count_invariants :
    (∀ df strategy columns k,
        nrows (resultState (handle_missing_values df strategy columns k)) ≤ nrows df ∧
          (strategy = "drop" ∨
            nrows (resultState (handle_missing_values df strategy columns k)) = nrows df)) ∧
    (∀ df column, nrows (resultState (remove_outliers df column)) ≤ nrows df) ∧
    (∀ df subset, nrows (resultState (remove_duplicates df subset)) ≤ nrows df) ∧
    (∀ parseDate df, nrows (convert_dtypes parseDate df) = nrows df) ∧
    (∀ df columns t, nrows (resultState (encode_categorical df columns t)) = nrows df) :=
  ⟨handle_missing_values_nrows, remove_outliers_nrows, remove_duplicates_nrows,
   convert_dtypes_nrows, encode_categorical_nrows⟩

/-- **C10.** An empty `columns` list is falsy in Python, so
`handle_missing_values` treats it exactly like an unspecified column
selection: the strategy is applied to all columns. -/
theorem c10_empty_column_list (df : Dataset) (strategy : String) (k : ℕ) :
    handle_missing_values df strategy (some []) k =
      handle_missing_values df strategy none k := by
  simp [handle_missing_values, effectiveColumns]

theorem colIdx_congr {df d : Dataset} (h : d.colNames = df.colNames) (n : String) :
    colIdx d n = colIdx df n := by
  simp [colIdx, h]

theorem colIdxList_congr {df d : Dataset} (h : d.colNames = df.colNames) (cs : List String) :
    colIdxList d cs = colIdxList df cs := by
  induction cs with
  | nil => rfl
  | cons c cs ih => simp [colIdxList, colIdx_congr h, ih]

theorem colIdxList_mk (ns : List String) (rows1 rows2 : List (List Cell)) (cs : List String) :
    colIdxList ⟨ns, rows1⟩ cs = colIdxList ⟨ns, rows2⟩ cs :=
  @colIdxList_congr ⟨ns, rows2⟩ ⟨ns, rows1⟩ rfl cs

/-- **C8.** `remove_duplicates` is idempotent: applied to its own
result-state (the result on success, the untouched input on failure) it
returns that very dataset again, duplicates judged by exact per-cell
equality over the subset columns with missing equal to missing and first
occurrences kept in order. -/
theorem c8_remove_duplicates_idempotent (df : Dataset) (subset : Option (List String)) :
    remove_duplicates (resultState (remove_duplicates df subset)) subset =
      remove_duplicates df subset := by
  cases subset with
  | none =>
      simp only [remove_duplicates, resultState]
      rw [keepFirstBy_idem]
  | some cs =>
      cases h : colIdxList df cs with
      | none => simp [remove_duplicates, h, resultState]
      | some idxs =>
          simp only [remove_duplicates, h, resultState]
          have h2 : colIdxList
              ⟨df.colNames, keepFirstBy (fun r => idxs.map (fun i => nthD r i Cell.na)) [] df.rows⟩
              cs = some idxs := by
            rw [colIdxList_mk df.colNames _ df.rows]
            exact h
          simp only [h2]
          rw [keepFirstBy_idem]

/-! ### Outlier detection agrees with the specified percentile algorithm -/

theorem quantile_eq_specPercentile (pct : ℕ) (hp : pct ≤ 100) (xs : List ℚ) :
    quantileSorted xs pct = specPercentile pct xs := by
  cases xs with
  | nil => rfl
  | cons x rest =>
    have hr_le : pct * ((x :: rest).length - 1) / 100 ≤ (x :: rest).length - 1 := by
      calc pct * ((x :: rest).length - 1) / 100
          ≤ 100 * ((x :: rest).length - 1) / 100 :=
            Nat.div_le_div_right (Nat.mul_le_mul_right _ hp)
        _ = (x :: rest).length - 1 := Nat.mul_div_cancel_left _ (by norm_num)
    simp only [quantileSorted, specPercentile, interpolate]
    by_cases hcase : pct * ((x :: rest).length - 1) / 100 + 1 ≤ (x :: rest).length - 1
    · rw [Nat.min_eq_left hcase]
      have hlt : pct * ((x :: rest).length - 1) / 100 + 1 < (x :: rest).length := by
        have : 1 ≤ (x :: rest).length := by simp
        omega
      rw [nthD_congr (x :: rest) _ _ 0 hlt]
      norm_num
    · have hre : pct * ((x :: rest).length - 1) / 100 = (x :: rest).length - 1 := by omega
      have hmin : min (pct * ((x :: rest).length - 1) / 100 + 1) ((x :: rest).length - 1) =
          pct * ((x :: rest).length - 1) / 100 := by omega
      rw [hmin]
      rw [nthD_default (x :: rest) (pct * ((x :: rest).length - 1) / 100 + 1)
            (nthD (x :: rest) (pct * ((x :: rest).length - 1) / 100) 0)
            (by simp only [hre]; omega)]
      norm_num

theorem flagCells_eq_map (lo hi : ℚ) (cells : List Cell) :
    flagCells lo hi cells = cells.map (fun c =>
      match c with
      | Cell.num v => decide (v < lo ∨ v > hi)
      | _ => false) := by
  induction cells with
  | nil => rfl
  | cons c cs ih => cases c <;> simp [flagCells, ih]

theorem maskOf_eq_specOutlierMask (cells : List Cell) :
    maskOf cells = specOutlierMask cells := by
  unfold maskOf iqrBounds specOutlierMask
  rw [quantile_eq_specPercentile 25 (by norm_num), quantile_eq_specPercentile 75 (by norm_num)]
  cases h25 : specPercentile 25 (sortedNums cells) with
  | none => rfl
  | some q1 =>
    cases h75 : specPercentile 75 (sortedNums cells) with
    | none => rfl
    | some q3 => simp [mkBounds, maskWith, flagCells_eq_map]

theorem nthD_const_false (cells : List Cell) (i : ℕ) :
    nthD (cells.map (fun _ => false)) i false = false := by
  induction cells generalizing i with
  | nil => cases i <;> rfl
  | cons c cs ih => cases i with
    | zero => rfl
    | succ n => exact ih n

theorem flagCells_missing (lo hi : ℚ) (cells : List Cell) (i : ℕ)
    (h : nthD cells i Cell.na = Cell.na) :
    nthD (flagCells lo hi cells) i false = false := by
  induction cells generalizing i with
  | nil => cases i <;> rfl
  | cons c cs ih =>
    cases i with
    | zero =>
      cases c with
      | na => rfl
      | num q => exact absurd h (by simp [nthD])
      | str s => rfl
      | bool b => rfl
    | succ n =>
      cases c with
      | na => exact ih n h
      | num q => exact ih n h
      | str s => exact ih n h
      | bool b => exact ih n h

theorem maskOf_missing_false (cells : List Cell) (i : ℕ) (h : nthD cells i Cell.na = Cell.na) :
    nthD (maskOf cells) i false = false := by
  unfold maskOf
  cases iqrBounds cells with
  | none => exact nthD_const_false cells i
  | some lohi => exact flagCells_missing lohi.1 lohi.2 cells i h

/-- **C3.** `detect_outliers_iqr` computes Q1 and Q3 of the column's
non-missing values by linear interpolation between ranks, fences at
`[Q1 − 1.5·IQR, Q3 + 1.5·IQR]`, and flags exactly the numeric cells
strictly outside the fence: its mask coincides with the spec's §4.3
algorithm, a missing cell is never flagged, and on the column
`[10, 12, 12, 13, 12, 11, 14, 13, 15, 102]` exactly the row holding
`102` is flagged. -/
theorem c3_detect_outliers_iqr_spec :
    (∀ cells, maskOf cells = specOutlierMask cells) ∧
      (∀ cells i, nthD cells i Cell.na = Cell.na → nthD (maskOf cells) i false = false) ∧
      detect_outliers_iqr
          ⟨["x"], [[Cell.num 10], [Cell.num 12], [Cell.num 12], [Cell.num 13], [Cell.num 12],
                   [Cell.num 11], [Cell.num 14], [Cell.num 13], [Cell.num 15], [Cell.num 102]]⟩ "x"
        = Except.ok [false, false, false, false, false, false, false, false, false, true] :=
  ⟨maskOf_eq_specOutlierMask, maskOf_missing_false, by
    norm_num [detect_outliers_iqr, colIdx, findIdxFrom, colCells, hasNonNum, maskOf, maskWith,
      iqrBounds, mkBounds, quantileSorted, interpolate, sortedNums, numsOf, sortBy, insertSorted,
      nthD, flagCells]⟩

/-! ### Imputation lemmas -/

theorem findIdxFrom_lt {α : Type} (p : α → Bool) (l : List α) (i : ℕ)
    (h : findIdxFrom p l = some i) : i < l.length := by
  induction l generalizing i with
  | nil => simp [findIdxFrom] at h
  | cons a as ih =>
    by_cases hp : p a
    · simp [findIdxFrom, hp] at h
      simp only [List.length_cons]
      omega
    · simp only [findIdxFrom, if_neg hp] at h
      cases hfa : findIdxFrom p as with
      | none => rw [hfa] at h; simp at h
      | some j =>
          rw [hfa] at h
          simp at h
          have := ih j hfa
          simp only [List.length_cons]
          omega

theorem findIdxFrom_prop {α : Type} (p : α → Bool) (l : List α) (i : ℕ) (d : α)
    (h : findIdxFrom p l = some i) : p (nthD l i d) = true := by
  induction l generalizing i with
  | nil => simp [findIdxFrom] at h
  | cons a as ih =>
    by_cases hp : p a
    · simp [findIdxFrom, hp] at h
      rw [← h]
      simpa [nthD] using hp
    · simp only [findIdxFrom, if_neg hp] at h
      cases hfa : findIdxFrom p as with
      | none => rw [hfa] at h; simp at h
      | some j =>
          rw [hfa] at h
          simp at h
          rw [← h]
          simpa [nthD] using ih j hfa

theorem colIdx_name (df : Dataset) (name : String) (i : ℕ) (h : colIdx df name = some i) :
    nthD df.colNames i "" = name := by
  have := findIdxFrom_prop (fun m => m == name) df.colNames i "" h
  simpa using this

theorem fillColumn_ok_stat {df : Dataset} {name : String} {d : Dataset} {strategy : String}
    (hs : strategy = "mean" ∨ strategy = "median" ∨ strategy = "mode")
    (h : fillColumn df strategy name = Except.ok d) :
    ∃ i, colIdx df name = some i ∧
      d = setColCells df i (fillValue (statCell strategy (colCells df i)) (colCells df i)) := by
  rcases hs with h1 | h1 | h1
  · subst h1
    have e1 : (("mean" : String) = "mean") = True := eq_true rfl
    simp only [fillColumn, e1, true_or, if_true] at h
    cases hidx : colIdx df name with
    | none => simp only [hidx] at h; exact absurd h (fun hc => Except.noConfusion hc)
    | some i =>
        simp only [hidx] at h
        split at h
        · exact absurd h (fun hc => Except.noConfusion hc)
        · injection h with h2
          exact ⟨i, rfl, h2.symm⟩
  · subst h1
    have e1 : (("median" : String) = "mean") = False := eq_false (by simp)
    have e2 : (("median" : String) = "median") = True := eq_true rfl
    simp only [fillColumn, e1, e2, false_or, if_true] at h
    cases hidx : colIdx df name with
    | none => simp only [hidx] at h; exact absurd h (fun hc => Except.noConfusion hc)
    | some i =>
        simp only [hidx] at h
        split at h
        · exact absurd h (fun hc => Except.noConfusion hc)
        · injection h with h2
          exact ⟨i, rfl, h2.symm⟩
  · subst h1
    have e1 : (("mode" : String) = "mean") = False := eq_false (by simp)
    have e2 : (("mode" : String) = "median") = False := eq_false (by simp)
    have e3 : (("mode" : String) = "mode") = True := eq_true rfl
    simp only [fillColumn, e1, e2, e3, false_or, or_false, if_true, if_false] at h
    cases hidx : colIdx df name with
    | none => simp only [hidx] at h; exact absurd h (fun hc => Except.noConfusion hc)
    | some i =>
        simp only [hidx] at h
        cases hmode : colMode (colCells df i) with
        | none => simp only [hmode] at h; exact absurd h (fun hc => Except.noConfusion hc)
        | some m =>
            simp only [hmode] at h
            injection h with h2
            refine ⟨i, rfl, ?_⟩
            have hst : statCell "mode" (colCells df i) = some m := by
              simp [statCell, hmode]
            rw [hst]
            exact h2.symm

theorem colIdx_setColCells (df : Dataset) (i : ℕ) (cs : List Cell) (n : String) :
    colIdx (setColCells df i cs) n = colIdx df n := rfl

theorem getCol_setColCells_self (df : Dataset) (name : String) (i : ℕ) (cs : List Cell)
    (hidx : colIdx df name = some i) (hlen : cs.length = nrows df)
    (hwfi : ∀ r ∈ df.rows, i < r.length) :
    getCol (setColCells df i cs) name = some cs := by
  unfold getCol
  rw [colIdx_setColCells, hidx]
  simp [colCells_setColCells_self df i cs hlen hwfi]

theorem getCol_setColCells_other (df : Dataset) (name other : String) (i : ℕ) (cs : List Cell)
    (hidx : colIdx df name = some i) (hlen : cs.length = nrows df)
    (hne : other ≠ name) :
    getCol (setColCells df i cs) other = getCol df other := by
  unfold getCol
  rw [colIdx_setColCells]
  cases hj : colIdx df other with
  | none => rfl
  | some j =>
      have hji : i ≠ j := by
        intro hji
        subst hji
        exact hne ((colIdx_name df other i hj).symm.trans (colIdx_name df name i hidx))
      simp [colCells_setColCells_ne df i j cs hlen hji]

theorem handle_single_fill {df : Dataset} {strategy name : String} {k : ℕ} {d : Dataset}
    (hwf : df.wf)
    (hs : strategy = "mean" ∨ strategy = "median" ∨ strategy = "mode")
    (h : handle_missing_values df strategy (some [name]) k = Except.ok d) :
    d.colNames = df.colNames ∧
      getCol d name = (getCol df name).map
        (fun cells => fillValue (statCell strategy cells) cells) ∧
      ∀ other, other ≠ name → getCol d other = getCol df other := by
  have hnd : (strategy = "drop") = False := by
    rcases hs with h1 | h1 | h1 <;> subst h1 <;> exact eq_false (by simp)
  have heff : effectiveColumns df (some [name]) = [name] := by simp [effectiveColumns]
  simp only [handle_missing_values, hnd, if_false, heff, columnLoop] at h
  cases hfc : fillColumn df strategy name with
  | error e =>
      simp only [hfc] at h
      exact absurd h (fun hc => Except.noConfusion hc)
  | ok df2 =>
      simp only [hfc, columnLoop] at h
      injection h with h2
      subst h2
      obtain ⟨i, hidx, hd⟩ := fillColumn_ok_stat hs hfc
      subst hd
      have hilt : i < df.colNames.length := findIdxFrom_lt _ _ _ hidx
      have hlen : (fillValue (statCell strategy (colCells df i)) (colCells df i)).length
          = nrows df := by rw [fillValue_length, colCells_length]
      have hwfi : ∀ r ∈ df.rows, i < r.length := fun r hr => by rw [hwf r hr]; exact hilt
      have hgc : getCol df name = some (colCells df i) := by
        unfold getCol
        rw [hidx]
        rfl
      refine ⟨rfl, ?_, ?_⟩
      · rw [getCol_setColCells_self df name i _ hidx hlen hwfi, hgc]
        rfl
      · intro other hne
        exact getCol_setColCells_other df name other i _ hidx hlen hne

/-- **C4.** Mean/median/mode imputation of a specified column substitutes
the strategy's statistic — computed over the column's non-missing cells
only — into every missing cell of that column, leaves non-missing cells
and unspecified columns unchanged, is the identity on a column with no
missing cell, and for the column `[1, 2, null, 4]` under `mean` fills
`(1+2+4)/3 = 7/3`. -/
theorem c4_imputation_substitutes_statistic :
    (∀ (df : Dataset) (strategy name : String) (k : ℕ) (d : Dataset), df.wf →
        (strategy = "mean" ∨ strategy = "median" ∨ strategy = "mode") →
        handle_missing_values df strategy (some [name]) k = Except.ok d →
        d.colNames = df.colNames ∧
          getCol d name = (getCol df name).map
            (fun cells => fillValue (statCell strategy cells) cells) ∧
          ∀ other, other ≠ name → getCol d other = getCol df other) ∧
    (∀ v cells, Cell.na ∉ cells → fillValue v cells = cells) ∧
    (∀ v cells j, j < cells.length →
        nthD (fillValue v cells) j Cell.na =
          if nthD cells j Cell.na = Cell.na then v.getD Cell.na else nthD cells j Cell.na) ∧
    statCell "mean" [Cell.num 1, Cell.num 2, Cell.na, Cell.num 4] = some (Cell.num (7/3)) ∧
    handle_missing_values ⟨["x"], [[Cell.num 1], [Cell.num 2], [Cell.na], [Cell.num 4]]⟩
        "mean" none 5
      = Except.ok ⟨["x"], [[Cell.num 1], [Cell.num 2], [Cell.num (7/3)], [Cell.num 4]]⟩ :=
  ⟨fun _ _ _ _ _ hwf hs h => handle_single_fill hwf hs h,
   fillValue_no_missing,
   fillValue_nthD,
   by norm_num [statCell, colMean, numsOf, sumQ, List.cons_ne_nil],
   by norm_num [handle_missing_values, effectiveColumns, columnLoop, fillColumn, colIdx,
     findIdxFrom, colCells, setColCells, colMean, numsOf, sumQ, fillValue, statCell, hasNonNum,
     nthD, setNth, List.cons_ne_nil,
     show ("mean" : String) ≠ "drop" by simp, show ("mean" : String) ≠ "median" by simp]⟩

/-- Witness for C4: the hypotheses of the universal part are satisfiable —
applying mean imputation to the one-column dataset `[1, 2, null, 4]`
meets them, and the theorem then yields the filled column. -/
theorem c4_imputation_witness :
    getCol (⟨["x"], [[Cell.num 1], [Cell.num 2], [Cell.num (7/3)], [Cell.num 4]]⟩ : Dataset) "x"
      = (getCol (⟨["x"], [[Cell.num 1], [Cell.num 2], [Cell.na], [Cell.num 4]]⟩ : Dataset) "x").map
          (fun cells => fillValue (statCell "mean" cells) cells) :=
  (c4_imputation_substitutes_statistic.1
    ⟨["x"], [[Cell.num 1], [Cell.num 2], [Cell.na], [Cell.num 4]]⟩ "mean" "x" 5
    ⟨["x"], [[Cell.num 1], [Cell.num 2], [Cell.num (7/3)], [Cell.num 4]]⟩
    (by intro r hr; simp at hr; rcases hr with h | h | h | h <;> simp [h])
    (Or.inl rfl)
    (by norm_num [handle_missing_values, effectiveColumns, columnLoop, fillColumn, colIdx,
      findIdxFrom, colCells, setColCells, colMean, numsOf, sumQ, fillValue, statCell, hasNonNum,
      nthD, setNth, List.cons_ne_nil,
      show ("mean" : String) ≠ "drop" by simp, show ("mean" : String) ≠ "median" by simp])).2.1

/-! ### Quality report on an empty dataset -/

/-- Counterexample to C5 as stated: on a zero-row dataset the source
computes `isnull().sum() / len(df) * 100` with `len(df) = 0`, and numpy
turns the `0 / 0` into `NaN` (embedded `none`) — the reported null
percentage is not `0`. -/
theorem c5_counterexample :
    data_quality_report ⟨["a"], []⟩ = [⟨"a", 0, 0, none, 0, 0⟩] ∧
      (none : Option ℚ) ≠ some 0 := by
  constructor
  · norm_num [data_quality_report, colCells, dropNa, nthD, duplicatedCount, keepFirstBy, nrows,
      List.range_succ, List.range_zero]
  · simp

/-- **C5 (amended).** On a zero-row dataset `data_quality_report`
succeeds — numpy evaluates the `0 / 0` to `NaN` with a warning instead
of raising — and reports a `NaN` (missing) null percentage, not `0`, for
every column. -/
theorem c5_zero_row_report (df : Dataset) (h : nrows df = 0) :
    (data_quality_report df).length = df.colNames.length ∧
      ∀ row ∈ data_quality_report df, row.nullPercentage = none := by
  constructor
  · simp [data_quality_report]
  · intro row hrow
    simp only [data_quality_report, List.mem_map] at hrow
    obtain ⟨i, _, heq⟩ := hrow
    rw [← heq]
    simp [h]

/-- Witness for C5 (amended): the one-column zero-row dataset satisfies
the hypothesis and the report has one record. -/
theorem c5_zero_row_witness :
    (data_quality_report ⟨["a"], []⟩).length = (["a"] : List String).length :=
  (c5_zero_row_report ⟨["a"], []⟩ rfl).1

/-! ### Unknown strategy and encoding strings are silently ignored -/

/-- Counterexample to C9 as stated: an unknown strategy string and an
unknown encoding-type string do not raise any error — each call falls
through every branch and returns the dataset unchanged as a success. -/
theorem c9_counterexample :
    handle_missing_values ⟨["a"], [[Cell.na]]⟩ "bogus" none 5
        = Except.ok ⟨["a"], [[Cell.na]]⟩ ∧
      encode_categorical ⟨["a"], [[Cell.na]]⟩ ["a"] "bogus"
        = Except.ok ⟨["a"], [[Cell.na]]⟩ := by
  constructor
  · norm_num [handle_missing_values, effectiveColumns, columnLoop, fillColumn,
      show ("bogus" : String) ≠ "drop" by simp, show ("bogus" : String) ≠ "mean" by simp,
      show ("bogus" : String) ≠ "median" by simp, show ("bogus" : String) ≠ "mode" by simp,
      show ("bogus" : String) ≠ "knn" by simp]
  · norm_num [encode_categorical,
      show ("bogus" : String) ≠ "one_hot" by simp, show ("bogus" : String) ≠ "label" by simp]

/-- **C9 (amended).** A strategy string outside
`{mean, median, mode, drop, knn}` and an encoding-type string outside
`{one_hot, label}` are silently ignored: no branch matches, no exception
is raised, and the dataset is returned unchanged as a success. -/
theorem c9_unknown_strings_silently_ignored :
    (∀ (df : Dataset) (strategy : String) (columns : Option (List String)) (k : ℕ),
        strategy ∉ (["mean", "median", "mode", "drop", "knn"] : List String) →
        handle_missing_values df strategy columns k = Except.ok df) ∧
    (∀ (df : Dataset) (columns : List String) (t : String),
        t ∉ (["one_hot", "label"] : List String) →
        encode_categorical df columns t = Except.ok df) := by
  constructor
  · intro df strategy columns k hmem
    simp at hmem
    obtain ⟨h1, h2, h3, h4, h5⟩ := hmem
    have hfc : ∀ (d : Dataset) (c : String), fillColumn d strategy c = Except.ok d := by
      intro d c
      unfold fillColumn
      rw [if_neg (by simp [h1, h2]), if_neg h3, if_neg h5]
    have hloop : ∀ (d : Dataset) (cols : List String),
        columnLoop (fun x y => fillColumn x strategy y) d cols = Except.ok d := by
      intro d cols
      induction cols generalizing d with
      | nil => rfl
      | cons c cs ih => simp only [columnLoop, hfc d c]; exact ih d
    simp only [handle_missing_values, if_neg h4]
    exact hloop df _
  · intro df columns t hmem
    simp at hmem
    unfold encode_categorical
    rw [if_neg hmem.1, if_neg hmem.2]

/-- Witness for C9 (amended): the strategy string `bogus` satisfies the
hypothesis and the call succeeds with the dataset unchanged. -/
theorem c9_unknown_strings_witness :
    handle_missing_values ⟨["a"], [[Cell.na]]⟩ "bogus" none 5
      = Except.ok ⟨["a"], [[Cell.na]]⟩ :=
  c9_unknown_strings_silently_ignored.1 ⟨["a"], [[Cell.na]]⟩ "bogus" none 5 (by simp)

/-! ### Failure states: the per-column loops are not transactional -/

/-- Counterexample to C2 as stated: `handle_missing_values` with the
`mode` strategy on columns `a = [1, missing]`, `b = [missing, missing]`
fills column `a` in place, then raises `KeyError` on column `b`
(`mode()[0]` of an all-missing column); the failed call leaves the
caller's dataset with column `a` mutated — not the input it was given. -/
theorem c2_counterexample :
    handle_missing_values ⟨["a", "b"], [[Cell.num 1, Cell.na], [Cell.na, Cell.na]]⟩
        "mode" (some ["a", "b"]) 5
      = Except.error ("KeyError",
          ⟨["a", "b"], [[Cell.num 1, Cell.na], [Cell.num 1, Cell.na]]⟩) ∧
      (⟨["a", "b"], [[Cell.num 1, Cell.na], [Cell.num 1, Cell.na]]⟩ : Dataset)
        ≠ ⟨["a", "b"], [[Cell.num 1, Cell.na], [Cell.na, Cell.na]]⟩ := by
  constructor
  · norm_num [handle_missing_values, effectiveColumns, columnLoop, fillColumn, colIdx,
      findIdxFrom, colCells, setColCells, colMode, dropNa, sortBy, insertSorted, cellLE,
      cellRank, bestCount, countEq, modeFirst, fillValue, nthD, setNth,
      show ("mode" : String) ≠ "drop" by simp, show ("mode" : String) ≠ "mean" by simp,
      show ("mode" : String) ≠ "median" by simp, show ("a" : String) ≠ "b" by simp,
      show ("b" : String) ≠ "a" by simp]
  · simp

/-- **C2 (amended).** Only the stage calls that fail before touching the
dataset are transactional: drop-strategy missing-value handling, one-hot
encoding, outlier detection/removal and duplicate removal leave the
input unmodified on failure, while the per-column fill and label loops
mutate in place and may leave the columns processed before the failing
column modified (see the counterexample). -/
theorem c2_atomic_stages_fail_clean :
    (∀ (df : Dataset) (columns : Option (List String)) (k : ℕ) (e : String) (d : Dataset),
        handle_missing_values df "drop" columns k = Except.error (e, d) → d = df) ∧
    (∀ (df : Dataset) (columns : List String) (e : String) (d : Dataset),
        encode_categorical df columns "one_hot" = Except.error (e, d) → d = df) ∧
    (∀ (df : Dataset) (column : String) (e : String) (d : Dataset),
        remove_outliers df column = Except.error (e, d) → d = df) ∧
    (∀ (df : Dataset) (subset : Option (List String)) (e : String) (d : Dataset),
        remove_duplicates df subset = Except.error (e, d) → d = df) := by
  refine ⟨?_, ?_, ?_, ?_⟩
  · intro df columns k e d h
    have hd : (("drop" : String) = "drop") = True := eq_true rfl
    simp only [handle_missing_values, hd, if_true, dropna] at h
    split at h
    · simp only [Except.error.injEq, Prod.mk.injEq] at h
      exact h.2.symm
    · exact absurd h (fun hc => Except.noConfusion hc)
  · intro df columns e d h
    have h1 : (("one_hot" : String) = "one_hot") = True := eq_true rfl
    simp only [encode_categorical, h1, if_true, encode_one_hot] at h
    split at h
    · simp only [Except.error.injEq, Prod.mk.injEq] at h
      exact h.2.symm
    · exact absurd h (fun hc => Except.noConfusion hc)
  · intro df column e d h
    unfold remove_outliers at h
    split at h
    · simp only [Except.error.injEq, Prod.mk.injEq] at h
      exact h.2.symm
    · exact absurd h (fun hc => Except.noConfusion hc)
  · intro df subset e d h
    unfold remove_duplicates at h
    split at h
    · exact absurd h (fun hc => Except.noConfusion hc)
    · split at h
      · simp only [Except.error.injEq, Prod.mk.injEq] at h
        exact h.2.symm
      · exact absurd h (fun hc => Except.noConfusion hc)

/-- Witness for C2 (amended): a `drop` call that names an unknown column
fails, and the theorem returns the carried state to be the input. -/
theorem c2_atomic_stages_witness :
    (⟨["a"], [[Cell.na]]⟩ : Dataset) = ⟨["a"], [[Cell.na]]⟩ :=
  c2_atomic_stages_fail_clean.1 ⟨["a"], [[Cell.na]]⟩ (some ["zz"]) 5 "KeyError"
    ⟨["a"], [[Cell.na]]⟩
    (by norm_num [handle_missing_values, effectiveColumns, dropna, colIdxList, colIdx,
      findIdxFrom, show ("a" : String) ≠ "zz" by simp])

/-! ### Label encoding: sorted-order codes, column-local -/

theorem labelColumn_ok {df : Dataset} {name : String} {d : Dataset}
    (h : labelColumn df name = Except.ok d) :
    ∃ i, colIdx df name = some i ∧
      d = setColCells df i (labelEncodeCells (colCells df i)) := by
  unfold labelColumn at h
  cases hidx : colIdx df name with
  | none => simp only [hidx] at h; exact absurd h (fun hc => Except.noConfusion hc)
  | some i =>
      simp only [hidx] at h
      injection h with h2
      exact ⟨i, rfl, h2.symm⟩

theorem labelLoop_spec :
    ∀ (cols : List String) (df d : Dataset), df.wf → cols.Nodup →
      columnLoop labelColumn df cols = Except.ok d →
      d.colNames = df.colNames ∧
        ∀ name, getCol d name =
          if name ∈ cols then (getCol df name).map labelEncodeCells else getCol df name := by
  intro cols
  induction cols with
  | nil =>
    intro df d _ _ h
    simp only [columnLoop] at h
    injection h with h2
    subst h2
    exact ⟨rfl, fun name => by simp⟩
  | cons c cs ih =>
      intro df d hwf hnd h
      simp only [columnLoop] at h
      cases hlc : labelColumn df c with
      | error e =>
          simp only [hlc] at h
          exact absurd h (fun hc => Except.noConfusion hc)
      | ok df2 =>
          simp only [hlc] at h
          obtain ⟨i, hidx, hdf2⟩ := labelColumn_ok hlc
          subst hdf2
          have hlen : (labelEncodeCells (colCells df i)).length = nrows df := by
            simp [labelEncodeCells, colCells_length]
          have hilt : i < df.colNames.length := findIdxFrom_lt _ _ _ hidx
          have hwfi : ∀ r ∈ df.rows, i < r.length := fun r hr => by
            rw [hwf r hr]; exact hilt
          have hwf2 : (setColCells df i (labelEncodeCells (colCells df i))).wf :=
            setColCells_wf df i _ hwf
          have hnd2 : cs.Nodup := (List.nodup_cons.mp hnd).2
          have hcn : c ∉ cs := (List.nodup_cons.mp hnd).1
          obtain ⟨hnames, hcols⟩ := ih _ d hwf2 hnd2 h
          refine ⟨hnames, ?_⟩
          intro name
          rw [hcols name]
          by_cases hmem : name ∈ cs
          · rw [if_pos hmem, if_pos (List.mem_cons_of_mem _ hmem)]
            have hne : name ≠ c := fun heq => hcn (heq ▸ hmem)
            rw [getCol_setColCells_other df c name i _ hidx hlen hne]
          · rw [if_neg hmem]
            by_cases hc : name = c
            · subst hc
              rw [if_pos (List.mem_cons_self _ _)]
              rw [getCol_setColCells_self df name i _ hidx hlen hwfi]
              have hgc : getCol df name = some (colCells df i) := by
                unfold getCol
                rw [hidx]
                rfl
              rw [hgc]
              rfl
            · rw [if_neg (by simp [hc, hmem])]
              exact getCol_setColCells_other df c name i _ hidx hlen hc

/-- Counterexample to C6 as stated: on the column `["b", "a"]`
`LabelEncoder` assigns `b ↦ 1, a ↦ 0` (codes follow the ascending sorted
order of `np.unique`), while first-seen order would assign
`b ↦ 0, a ↦ 1`. -/
theorem c6_counterexample :
    encode_categorical ⟨["c"], [[Cell.str "b"], [Cell.str "a"]]⟩ ["c"] "label"
        = Except.ok ⟨["c"], [[Cell.num 1], [Cell.num 0]]⟩ ∧
      (⟨["c"], [[Cell.num 1], [Cell.num 0]]⟩ : Dataset)
        ≠ ⟨["c"], [[Cell.num 0], [Cell.num 1]]⟩ := by
  constructor
  · norm_num [encode_categorical, columnLoop, labelColumn, labelEncodeCells, labelClasses,
      colIdx, findIdxFrom, colCells, setColCells, sortBy, insertSorted, cellLE, strLE,
      charListLE, keepFirstBy, nthD, setNth,
      show ("label" : String) ≠ "one_hot" by simp, show ("b" : String) ≠ "a" by simp,
      show ("a" : String) ≠ "b" by simp]
  · simp

/-- **C6 (amended).** `label` encoding replaces each specified column by
the codes `labelEncodeCells` computes from that column's own cells alone
— each value's position in the ascending sorted list of the column's
distinct values (`np.unique` order, not first-seen order) — and leaves
every other column unchanged, so the assignment of one column never
influences another; on `["b", "a"]` the codes are `[1, 0]`. -/
theorem c6_label_sorted_codes_column_local :
    (∀ (df : Dataset) (cols : List String) (d : Dataset), df.wf → cols.Nodup →
        encode_categorical df cols "label" = Except.ok d →
        d.colNames = df.colNames ∧
          ∀ name, getCol d name =
            if name ∈ cols then (getCol df name).map labelEncodeCells
            else getCol df name) ∧
      labelEncodeCells [Cell.str "b", Cell.str "a"] = [Cell.num 1, Cell.num 0] := by
  constructor
  · intro df cols d hwf hnd h
    have he : encode_categorical df cols "label" = columnLoop labelColumn df cols := by
      unfold encode_categorical
      rw [if_neg (by simp), if_pos rfl]
    rw [he] at h
    exact labelLoop_spec cols df d hwf hnd h
  · norm_num [labelEncodeCells, labelClasses, sortBy, insertSorted, cellLE, strLE,
      charListLE, keepFirstBy, findIdxFrom, show ("b" : String) ≠ "a" by simp,
      show ("a" : String) ≠ "b" by simp]

/-- Witness for C6 (amended): the hypotheses hold for the one-column
dataset `["b", "a"]`, and the theorem yields the sorted-order codes. -/
theorem c6_label_witness :
    getCol (⟨["c"], [[Cell.num 1], [Cell.num 0]]⟩ : Dataset) "c"
      = (getCol (⟨["c"], [[Cell.str "b"], [Cell.str "a"]]⟩ : Dataset) "c").map
          labelEncodeCells := by
  have h := (c6_label_sorted_codes_column_local.1
      ⟨["c"], [[Cell.str "b"], [Cell.str "a"]]⟩ ["c"]
      ⟨["c"], [[Cell.num 1], [Cell.num 0]]⟩
      (by intro r hr; simp at hr; rcases hr with h | h <;> simp [h])
      (by simp)
      (by norm_num [encode_categorical, columnLoop, labelColumn, labelEncodeCells, labelClasses,
        colIdx, findIdxFrom, colCells, setColCells, sortBy, insertSorted, cellLE, strLE,
        charListLE, keepFirstBy, nthD, setNth,
        show ("label" : String) ≠ "one_hot" by simp, show ("b" : String) ≠ "a" by simp,
        show ("a" : String) ≠ "b" by simp])).2 "c"
  simpa using h

/-! ### One-hot encoding: sorted-first reference category -/

theorem encode_one_hot_single (name : String) (rows : List (List Cell)) :
    encode_categorical ⟨[name], rows⟩ [name] "one_hot"
      = Except.ok ⟨oneHotNames name (colCells ⟨[name], rows⟩ 0),
          rows.map (fun r =>
            ((sortedDistinct (colCells ⟨[name], rows⟩ 0)).drop 1).map (fun c =>
              Cell.bool (decide (nthD r 0 Cell.na = c))))⟩ := by
  have h1 : (("one_hot" : String) = "one_hot") = True := eq_true rfl
  simp [encode_categorical, h1, encode_one_hot, colIdxList, colIdx, findIdxFrom,
    concatMap, List.range_succ, List.range_zero, oneHotNames]

/-- Evaluation of one-hot encoding on the colour column
`[red, green, blue]`: the sorted categories are `blue < green < red`,
`drop_first` removes `blue`, and the indicators follow. -/
theorem one_hot_color_eval :
    encode_categorical ⟨["color"], [[Cell.str "red"], [Cell.str "green"], [Cell.str "blue"]]⟩
        ["color"] "one_hot"
      = Except.ok ⟨["color_green", "color_red"],
          [[Cell.bool false, Cell.bool true],
           [Cell.bool true, Cell.bool false],
           [Cell.bool false, Cell.bool false]]⟩ := by
  norm_num [encode_categorical, encode_one_hot, colIdxList, colIdx, findIdxFrom, concatMap,
    List.range_succ, List.range_zero, oneHotNames, sortedDistinct, dropNa, sortBy, insertSorted,
    cellLE, strLE, charListLE, keepFirstBy, cellName, colCells, nthD,
    show ("red" : String) ≠ "green" by simp, show ("green" : String) ≠ "red" by simp,
    show ("red" : String) ≠ "blue" by simp, show ("blue" : String) ≠ "red" by simp,
    show ("green" : String) ≠ "blue" by simp, show ("blue" : String) ≠ "green" by simp]
  exact ⟨by decide, by decide⟩

/-- Counterexample to C7 as stated: on the column
`[red, green, blue]` (red first-seen) `get_dummies(drop_first=True)`
drops the alphabetically first category `blue`, producing
`color_green` and `color_red` — not `color_green` and `color_blue` —
and the row holding `red` has its `color_red` indicator true, not both
indicators false. -/
theorem c7_counterexample :
    encode_categorical ⟨["color"], [[Cell.str "red"], [Cell.str "green"], [Cell.str "blue"]]⟩
        ["color"] "one_hot"
      = Except.ok ⟨["color_green", "color_red"],
          [[Cell.bool false, Cell.bool true],
           [Cell.bool true, Cell.bool false],
           [Cell.bool false, Cell.bool false]]⟩ ∧
      (["color_green", "color_red"] : List String) ≠ ["color_green", "color_blue"] :=
  ⟨one_hot_color_eval, by decide⟩

/-- **C7 (amended).** One-hot encoding of a column removes it, appends
one boolean indicator column per distinct observed category *except the
first in ascending sorted order* (the reference `get_dummies` drops
under `drop_first=True` — alphabetical, not first-seen), names them
`<original>_<category>`, and sets a row's indicator for category `c`
true iff its value equals `c`; on distinct values `{red, green, blue}`
this produces exactly `color_green` and `color_red`, and a `red` row has
`color_red` true and `color_green` false. -/
theorem c7_one_hot_sorted_first_reference :
    (∀ (name : String) (rows : List (List Cell)) (d : Dataset),
        encode_categorical ⟨[name], rows⟩ [name] "one_hot" = Except.ok d →
        d.colNames = ((sortedDistinct (colCells ⟨[name], rows⟩ 0)).drop 1).map
            (fun c => name ++ "_" ++ cellName c) ∧
          d.colNames.length = (sortedDistinct (colCells ⟨[name], rows⟩ 0)).length - 1 ∧
          d.rows = rows.map (fun r =>
            ((sortedDistinct (colCells ⟨[name], rows⟩ 0)).drop 1).map (fun c =>
              Cell.bool (decide (nthD r 0 Cell.na = c))))) ∧
      encode_categorical ⟨["color"], [[Cell.str "red"], [Cell.str "green"], [Cell.str "blue"]]⟩
          ["color"] "one_hot"
        = Except.ok ⟨["color_green", "color_red"],
            [[Cell.bool false, Cell.bool true],
             [Cell.bool true, Cell.bool false],
             [Cell.bool false, Cell.bool false]]⟩ := by
  constructor
  · intro name rows d h
    rw [encode_one_hot_single] at h
    injection h with h2
    subst h2
    refine ⟨by simp [oneHotNames], ?_, rfl⟩
    simp [oneHotNames]
  · exact one_hot_color_eval

/-- Witness for C7 (amended): applying the theorem to the concrete
colour column yields the sorted-first dummy names. -/
theorem c7_one_hot_witness :
    (["color_green", "color_red"] : List String)
      = ((sortedDistinct (colCells
            ⟨["color"], [[Cell.str "red"], [Cell.str "green"], [Cell.str "blue"]]⟩ 0)).drop 1).map
          (fun c => "color" ++ "_" ++ cellName c) :=
  (c7_one_hot_sorted_first_reference.1 "color"
    [[Cell.str "red"], [Cell.str "green"], [Cell.str "blue"]]
    ⟨["color_green", "color_red"],
      [[Cell.bool false, Cell.bool true],
       [Cell.bool true, Cell.bool false],
       [Cell.bool false, Cell.bool false]]⟩
    one_hot_color_eval).1

/-- Witness for C3: the missing-cell hypothesis is satisfiable — a
column consisting of one missing cell is never flagged. -/
theorem c3_detect_outliers_witness :
    nthD (maskOf [Cell.na]) 0 false = false :=
  c3_detect_outliers_iqr_spec.2.1 [Cell.na] 0 rfl
